import Mathlib

/-!
# Shallow embedding of `src/axvoting/cardinal/approval/proportional.py`

This file embeds the proportional approval voting module:

* the apportionment-method hierarchy (`ApportionmentMethod` with the three
  concrete subclasses `SainteLagueApportionmentMethod`,
  `SainteLague12ApportionmentMethod`, `SainteLague14ApportionmentMethod`;
  note the source defines **no** d'Hondt subclass even though the factory's
  `Literal` type and the base-class docstrings mention it),
* the `Election` dataclass with its mutable state (`ballots`,
  `ballot_to_indexes`, `counter`) modelled by explicit state passing,
* the operations `cast_ballot`, `remove_ballot`, `get_result`.

Modelling conventions:

* Python `float` is modelled as `ℚ` (the float literals `1.2` and `1.4`
  become the exact rationals `6/5` and `7/5`); every claim settled here is
  structural and does not depend on rounding.
* Python exceptions become an `Err` code returned in an `Except`; since an
  exception leaves already-performed attribute mutations in place, each
  stateful operation returns the (possibly partially mutated) state next to
  the `Except`.
* Python `dict` (insertion ordered, unique keys) is modelled as an
  association list in insertion order; `defaultdict(list)` keeps the same
  representation, with its insert-on-missing-read behaviour written out.
* `set[str]` is modelled as `Finset String`; the `tuple(sorted(...))`
  signature used as an index key is `Finset.sort (· ≤ ·)`.
-/

namespace AxVoting

/-- Equality of `Except` values is decidable when it is on both sides;
needed to evaluate the embedded operations on concrete inputs. -/
instance {ε α : Type} [DecidableEq ε] [DecidableEq α] : DecidableEq (Except ε α) := fun x y =>
  match x, y with
  | .ok a, .ok b =>
    if h : a = b then .isTrue (by rw [h]) else .isFalse (by intro hc; cases hc; exact h rfl)
  | .error a, .error b =>
    if h : a = b then .isTrue (by rw [h]) else .isFalse (by intro hc; cases hc; exact h rfl)
  | .ok _, .error _ => .isFalse (by intro hc; cases hc)
  | .error _, .ok _ => .isFalse (by intro hc; cases hc)

abbrev Candidate := String

/-- The alias `type Ballot = set[Candidate]`. -/
abbrev Ballot := Finset Candidate

/-- Python exception kinds raised (explicitly or implicitly) by the module. -/
inductive Err where
  | valueError
  | keyError
  | indexError
  | typeError
  | runtimeError
deriving DecidableEq, Repr

/-- The concrete `ApportionmentMethod` subclasses that exist in the source.
There are exactly three; no d'Hondt subclass is defined anywhere in the
module (its name appears only in the `Literal` annotation and docstrings). -/
inductive ApportionmentMethod where
  | sainteLague
  | sainteLague12
  | sainteLague14
deriving DecidableEq, Repr

namespace ApportionmentMethod

/-- Value of `SainteLagueApportionmentMethod.dv` at a non-negative index
(the `index < 0` guard lives in `dv` below):
`if index == 0: return 0` else `1. / (-1 + 2 * index)`. -/
def sainteLague_dv_val (n : ℕ) : ℚ :=
  if n = 0 then 0 else 1 / (-1 + 2 * (n : ℚ))

/-- Value of `SainteLague12ApportionmentMethod.dv` at a non-negative index:
`if index == 0: return 0`, `if index == 1: return 1. / 1.2`,
else `1. / (-1 + 2 * index)`.  The float `1.2` is the rational `6/5`. -/
def sainteLague12_dv_val (n : ℕ) : ℚ :=
  if n = 0 then 0 else if n = 1 then 1 / (6 / 5 : ℚ) else 1 / (-1 + 2 * (n : ℚ))

/-- Value of `SainteLague14ApportionmentMethod.dv` at a non-negative index:
`if index == 0: return 0`, `if index == 1: return 1. / 1.4`,
else `1. / (-1 + 2 * index)`.  The float `1.4` is the rational `7/5`. -/
def sainteLague14_dv_val (n : ℕ) : ℚ :=
  if n = 0 then 0 else if n = 1 then 1 / (7 / 5 : ℚ) else 1 / (-1 + 2 * (n : ℚ))

/-- Dynamic dispatch of `cls.dv` restricted to non-negative indices. -/
def dv_val : ApportionmentMethod → ℕ → ℚ
  | .sainteLague => sainteLague_dv_val
  | .sainteLague12 => sainteLague12_dv_val
  | .sainteLague14 => sainteLague14_dv_val

/-- Dispatch of `cls.dv(index)` on an arbitrary `int` index: each concrete subclass
begins with `if index < 0: raise ValueError`. -/
def dv (m : ApportionmentMethod) (index : ℤ) : Except Err ℚ :=
  if index < 0 then .error .valueError else .ok (m.dv_val index.toNat)

/-- The value of the base-class `v` at a non-negative index:
`sum(cls.dv(i) for i in range(1, index + 1))` (the summands have `i ≥ 1`,
so the `dv` calls inside the sum cannot raise). -/
def v_val (m : ApportionmentMethod) (n : ℕ) : ℚ :=
  ∑ i in Finset.range n, m.dv_val (i + 1)

/-- The method `ApportionmentMethod.v(index)`:
`if index < 0: raise ValueError`, `if index == 0: return 0`, else the
prefix sum of `dv` over `1..index`. -/
def v (m : ApportionmentMethod) (index : ℤ) : Except Err ℚ :=
  if index < 0 then .error .valueError
  else if index = 0 then .ok 0
  else .ok (m.v_val index.toNat)

/-- The factory `ApportionmentMethod.from_name(name)`: a `dict` literal lookup whose
keys are exactly `"sainte_lague"`, `"sainte_lague_1_2"`,
`"sainte_lague_1_4"`; any other name (including `"d_hondt"`, which the
`Literal` annotation advertises but the dict does not contain) raises
`KeyError`. -/
def from_name (name : String) : Except Err ApportionmentMethod :=
  if name = "sainte_lague" then .ok .sainteLague
  else if name = "sainte_lague_1_2" then .ok .sainteLague12
  else if name = "sainte_lague_1_4" then .ok .sainteLague14
  else .error .keyError

end ApportionmentMethod

/-- Lookup in an insertion-ordered association list (Python `d[k]` /
`k in d`, with `none` modelling `KeyError` / `False`). -/
def assocFind {κ ν : Type} [DecidableEq κ] (k : κ) : List (κ × ν) → Option ν
  | [] => none
  | p :: rest => if k = p.1 then some p.2 else assocFind k rest

/-- Deletion from an insertion-ordered association list (Python `del d[k]`;
keys are unique, so deleting the first match is deleting the match). -/
def assocErase {κ ν : Type} [DecidableEq κ] (k : κ) : List (κ × ν) → List (κ × ν)
  | [] => []
  | p :: rest => if k = p.1 then rest else p :: assocErase k rest

/-- The `defaultdict(list)` update `d[k].append(i)` — append `i` to the entry of `k`,
creating the entry (at the end, as a fresh key) when it is missing. -/
def indexAppend (k : List Candidate) (i : ℕ) :
    List (List Candidate × List ℕ) → List (List Candidate × List ℕ)
  | [] => [(k, [i])]
  | p :: rest => if k = p.1 then (p.1, p.2 ++ [i]) :: rest else p :: indexAppend k i rest

/-- Sorting the elements of a `Finset Candidate` into a list, the embedding
of Python `sorted(some_set)`.  (Defined through `List.insertionSort` lifted
to the multiset quotient; insertion sort of any two permuted representatives
agrees, so the lift is well defined.  This is extensionally
`Finset.sort (· ≤ ·)` but reduces structurally.) -/
def finsetSort (s : Finset Candidate) : List Candidate :=
  Quotient.lift (List.insertionSort (· ≤ ·))
    (fun l₁ l₂ h =>
      List.eq_of_perm_of_sorted
        (((List.perm_insertionSort _ l₁).trans h).trans (List.perm_insertionSort _ l₂).symm)
        (List.sorted_insertionSort _ l₁) (List.sorted_insertionSort _ l₂))
    s.val

/-- The signature key `tuple(sorted(ballot))` of a ballot. -/
def ballotKey (b : Ballot) : List Candidate := finsetSort b

/-- The `Election` dataclass: the three config fields, plus the state set up
in `__post_init__` (`ballots`, `ballot_to_indexes`, `counter`). -/
structure Election where
  committee_size : ℤ
  apportionment_method : ApportionmentMethod
  choices : Option Ballot := none
  ballots : List (ℕ × Ballot) := []
  ballot_to_indexes : List (List Candidate × List ℕ) := []
  counter : ℕ := 0
deriving DecidableEq

namespace Election

/-- The method `Election.cast_ballot(approves)`:
`approves_set = set(approves)`; `ballot_index = self.counter`;
`if ballot_index in self.ballots: raise RuntimeError` (the invariant-breach
guard, leaving the state untouched); otherwise store the ballot, append the
index under its signature key, increment the counter, return the index. -/
def cast_ballot (e : Election) (approves : List Candidate) : Except Err ℕ × Election :=
  let approves_set : Ballot := approves.toFinset
  let ballot_index := e.counter
  if (assocFind ballot_index e.ballots).isSome then
    (.error .runtimeError, e)
  else
    (.ok ballot_index,
      { e with
        ballots := e.ballots ++ [(ballot_index, approves_set)]
        ballot_to_indexes := indexAppend (ballotKey approves_set) ballot_index e.ballot_to_indexes
        counter := e.counter + 1 })

/-- The argument of `remove_ballot` — the parameter is typed
`ballot: Ballot | int`. -/
inductive BallotOrId where
  | value (b : Ballot)
  | id (i : ℕ)

/-- The method `Election.remove_ballot(ballot)` — modelled line by line, with the
`isinstance(ballot, Ballot)` dispatch read as the intended set-vs-int test.
(Under Python ≥ 3.12, which the module requires for its `type Ballot = ...`
statement, that `isinstance` call itself raises `TypeError`, because a PEP
695 type alias is not usable as an `isinstance` target, so the real method
fails even earlier, with no state change at all.  We model the body so that
its own behaviour is visible.)

* by value: `self.ballot_to_indexes[tuple(sorted(ballot))]` on the
  `defaultdict` inserts an empty entry when the key is missing, and `[-1]`
  then raises `IndexError`; otherwise the last (most recently appended)
  index is selected;
* `del self.ballots[ballot_index]` raises `KeyError` when the index is
  absent (by value this can happen through a stale index entry; by identity
  it is the missing-identity case);
* the final `del self.ballot_to_indexes[ballot_value]` **always** raises
  `TypeError`: `ballot_value` is a `set` (the looked-up `self.ballots[ballot]`
  in the int branch, the argument itself in the set branch), and a `set` is
  unhashable, hence not usable as a `dict` key.  Consequently no call to
  `remove_ballot` ever returns normally, and the signature index is never
  shrunk, while the `ballots` entry selected for deletion is already gone. -/
def remove_ballot (e : Election) (arg : BallotOrId) : Except Err Unit × Election :=
  match arg with
  | .value ballot =>
    match assocFind (ballotKey ballot) e.ballot_to_indexes with
    | none =>
      (.error .indexError,
        { e with ballot_to_indexes := e.ballot_to_indexes ++ [(ballotKey ballot, [])] })
    | some indexes =>
      match indexes.getLast? with
      | none => (.error .indexError, e)
      | some ballot_index =>
        match assocFind ballot_index e.ballots with
        | none => (.error .keyError, e)
        | some _ =>
          (.error .typeError, { e with ballots := assocErase ballot_index e.ballots })
  | .id ballot_index =>
    match assocFind ballot_index e.ballots with
    | none => (.error .keyError, e)
    | some _ =>
      (.error .typeError, { e with ballots := assocErase ballot_index e.ballots })

/-- The candidate universe of `get_result`: the union of all stored ballots
(`actual_choices`), intersected with `self.choices` when that is set. -/
def candidate_universe (e : Election) : Finset Candidate :=
  let actual_choices : Finset Candidate := e.ballots.foldl (fun acc p => acc ∪ p.2) ∅
  match e.choices with
  | none => actual_choices
  | some cs => actual_choices ∩ cs

/-- One committee's score:
`sum over self.ballots.values() of apportionment_method.v(len(ballot & committee))`.
The argument of `v` is a cardinality, hence non-negative, so the `v` calls
cannot raise and contribute their `v_val`. -/
def score (e : Election) (committee : Finset Candidate) : ℚ :=
  (e.ballots.map fun p => e.apportionment_method.v_val (p.2 ∩ committee).card).sum

end Election

/-- A result row: the committee as its sorted candidate tuple, paired with
its score. -/
abbrev Row := List Candidate × ℚ

/-- Python tuple comparison `a <= b` on candidate tuples (lexicographic,
a strict prefix compares as smaller). -/
def tupleLe : List Candidate → List Candidate → Bool
  | [], _ => true
  | _ :: _, [] => false
  | a :: as, b :: bs => if a < b then true else if b < a then false else tupleLe as bs

/-- The row order produced by
`sort_values(by=["scores", "committees"], ascending=[False, True])`:
higher score first; inside a score tie, lexicographically smaller committee
tuple first. -/
def rowLE (x y : Row) : Prop := y.2 < x.2 ∨ (x.2 = y.2 ∧ tupleLe x.1 y.1 = true)

instance : DecidableRel rowLE := fun x y => by
  unfold rowLE; infer_instance

namespace Election

/-- The unsorted rows of `get_result`: one row per
`combinations(choices, committee_size)` element.  `sublistsLen` over the
sorted universe enumerates exactly the size-`committee_size` subsets; each
row records `tuple(sorted(committee_candidate))` (already sorted here) and
the committee's score. -/
def committee_rows (e : Election) : List Row :=
  (List.sublistsLen e.committee_size.toNat (finsetSort e.candidate_universe)).map
    fun c => (c, e.score c.toFinset)

/-- The method `Election.get_result()`:
`combinations` raises `ValueError` when `committee_size` is negative;
otherwise every size-`committee_size` committee from the (filtered)
candidate universe is scored and the rows are returned sorted by
(score descending, committee tuple ascending).  The method assigns no
attribute, so the state component of the returned pair is the input
state unchanged.  Grouping equal scores in a dict and concatenating the
groups before the final `sort_values`, as the source does, yields the same
sorted sequence, since (score, tuple) keys are distinct across rows. -/
def get_result (e : Election) : Except Err (List Row) × Election :=
  if e.committee_size < 0 then (.error .valueError, e)
  else (.ok (List.insertionSort rowLE e.committee_rows), e)

end Election

/-! ## Operation sequences against the store -/

/-- One API call against the ballot store. -/
inductive Op where
  | cast (approves : List Candidate)
  | remove (arg : Election.BallotOrId)

/-- The observable outcome of one call: the identity returned by a
successful `cast_ballot`, a successful removal, or the exception raised. -/
inductive Out where
  | castId (i : ℕ)
  | removed
  | failed (er : Err)
deriving DecidableEq

/-- Run one call, recording its outcome. -/
def Election.step (e : Election) : Op → Out × Election
  | .cast approves =>
    match e.cast_ballot approves with
    | (.ok i, e1) => (.castId i, e1)
    | (.error er, e1) => (.failed er, e1)
  | .remove arg =>
    match e.remove_ballot arg with
    | (.ok _, e1) => (.removed, e1)
    | (.error er, e1) => (.failed er, e1)

/-- Run a finite sequence of calls, collecting the outcomes. -/
def Election.run (e : Election) : List Op → List Out × Election
  | [] => ([], e)
  | op :: ops =>
    let s := e.step op
    let r := s.2.run ops
    (s.1 :: r.1, r.2)

/-- The identities returned by the successful `cast_ballot` calls of an
outcome sequence, in order. -/
def castIds : List Out → List ℕ
  | [] => []
  | .castId i :: rest => i :: castIds rest
  | .removed :: rest => castIds rest
  | .failed _ :: rest => castIds rest

/-- The store invariant: every stored ballot identity is below the
counter. -/
def Election.keysBelowCounter (e : Election) : Prop :=
  ∀ p ∈ e.ballots, p.1 < e.counter

/-! ## Concrete elections used by witnesses and counterexamples -/

/-- The constructor `Election(committee_size=..., apportionment_method=..., choices=...)`:
a freshly constructed election, its state set up by `__post_init__`. -/
def freshElection (cs : ℤ) (m : ApportionmentMethod) (ch : Option Ballot) : Election :=
  { committee_size := cs, apportionment_method := m, choices := ch }

/-- A freshly constructed election (committee size 1, Sainte-Laguë). -/
def eFresh : Election := freshElection 1 .sainteLague none

/-- State of `eFresh` after casting the ballot `{"A"}` (which returns identity 0). -/
def eOne : Election := (eFresh.cast_ballot ["A"]).2

/-- State of `eOne` after casting a second `{"A"}` ballot (identity 1): two stored
ballots with the same signature. -/
def eTwo : Election := (eOne.cast_ballot ["A"]).2

/-- Witness for C1: a store holding the ballot `{"A"}` and an empty ballot,
committee size 1. -/
def eC1 : Election :=
  { committee_size := 1, apportionment_method := .sainteLague,
    ballots := [(0, {"A"}), (1, ∅)], counter := 2 }

/-- Witness for C2: same store as the C1 witness. -/
def eC2 : Election :=
  { committee_size := 1, apportionment_method := .sainteLague12,
    ballots := [(0, {"A", "B"})], counter := 1 }

/-- The election state used to refute C5's claim about `committee_size = 0`. -/
def eC5zero : Election := { committee_size := 0, apportionment_method := .sainteLague }

/-- The negative-size and oversized elections used by the C5 witness. -/
def eC5neg : Election := { committee_size := -1, apportionment_method := .sainteLague }

/-- An election whose candidate universe (one candidate) is smaller than its
committee size. -/
def eC5big : Election :=
  { committee_size := 2, apportionment_method := .sainteLague,
    ballots := [(0, {"A"})], counter := 1 }

/-! ## Lemmas about the apportionment methods -/

namespace ApportionmentMethod

theorem dv_val_zero (m : ApportionmentMethod) : m.dv_val 0 = 0 := by
  cases m <;> rfl

theorem dv_val_nonneg (m : ApportionmentMethod) (n : ℕ) : 0 ≤ m.dv_val n := by
  have hden : ∀ k : ℕ, 1 ≤ k → (0 : ℚ) ≤ -1 + 2 * (k : ℚ) := by
    intro k hk
    have : (1 : ℚ) ≤ (k : ℚ) := by exact_mod_cast hk
    linarith
  rcases Nat.eq_zero_or_pos n with h0 | hpos
  · rw [h0, m.dv_val_zero]
  · cases m <;>
      simp only [dv_val, sainteLague_dv_val, sainteLague12_dv_val, sainteLague14_dv_val] <;>
      split_ifs <;>
      first
        | rfl
        | positivity
        | exact div_nonneg zero_le_one (hden n hpos)

theorem v_val_zero (m : ApportionmentMethod) : m.v_val 0 = 0 := by
  simp [v_val]

theorem v_val_succ (m : ApportionmentMethod) (n : ℕ) :
    m.v_val (n + 1) = m.v_val n + m.dv_val (n + 1) :=
  Finset.sum_range_succ _ n

theorem v_val_nonneg (m : ApportionmentMethod) (n : ℕ) : 0 ≤ m.v_val n :=
  Finset.sum_nonneg fun i _ => m.dv_val_nonneg (i + 1)

theorem v_eq_ok (m : ApportionmentMethod) {i : ℤ} (h : 0 ≤ i) :
    m.v i = .ok (m.v_val i.toNat) := by
  unfold v
  rw [if_neg (not_lt.mpr h)]
  rcases eq_or_ne i 0 with h0 | h0
  · rw [if_pos h0, h0]
    simp [v_val_zero]
  · rw [if_neg h0]

theorem dv_eq_ok (m : ApportionmentMethod) {i : ℤ} (h : 0 ≤ i) :
    m.dv i = .ok (m.dv_val i.toNat) := by
  unfold dv
  rw [if_neg (not_lt.mpr h)]

end ApportionmentMethod

/-! ## Lemmas about `finsetSort`, the tuple order and the row order -/

theorem finsetSort_sorted (s : Finset Candidate) : (finsetSort s).Sorted (· ≤ ·) := by
  rcases s with ⟨m, hm⟩
  induction m using Quotient.inductionOn with
  | h l => exact List.sorted_insertionSort _ l

theorem mem_finsetSort {s : Finset Candidate} {a : Candidate} :
    a ∈ finsetSort s ↔ a ∈ s := by
  rcases s with ⟨m, hm⟩
  induction m using Quotient.inductionOn with
  | h l => simp [finsetSort, (List.perm_insertionSort (· ≤ ·) l).mem_iff]

theorem finsetSort_nodup (s : Finset Candidate) : (finsetSort s).Nodup := by
  rcases s with ⟨m, hm⟩
  induction m using Quotient.inductionOn with
  | h l =>
    exact ((List.perm_insertionSort (· ≤ ·) l).nodup_iff).mpr (Multiset.coe_nodup.mp hm)

theorem length_finsetSort (s : Finset Candidate) : (finsetSort s).length = s.card := by
  rcases s with ⟨m, hm⟩
  induction m using Quotient.inductionOn with
  | h l => exact (List.perm_insertionSort (· ≤ ·) l).length_eq

theorem tupleLe_total : ∀ x y : List Candidate, tupleLe x y = true ∨ tupleLe y x = true
  | [], _ => Or.inl rfl
  | _ :: _, [] => Or.inr rfl
  | a :: as, b :: bs => by
    rcases lt_trichotomy a b with h | h | h
    · exact Or.inl (by simp [tupleLe, h])
    · subst h
      rcases tupleLe_total as bs with ih | ih
      · exact Or.inl (by simp [tupleLe, lt_irrefl, ih])
      · exact Or.inr (by simp [tupleLe, lt_irrefl, ih])
    · exact Or.inr (by simp [tupleLe, h])

theorem tupleLe_trans :
    ∀ {x y z : List Candidate}, tupleLe x y = true → tupleLe y z = true → tupleLe x z = true
  | [], _, _, _, _ => rfl
  | _ :: _, [], _, h1, _ => by simp [tupleLe] at h1
  | _ :: _, _ :: _, [], _, h2 => by simp [tupleLe] at h2
  | a :: as, b :: bs, c :: cs, h1, h2 => by
    rcases lt_trichotomy a b with hab | hab | hab
    · rcases lt_trichotomy b c with hbc | hbc | hbc
      · simp [tupleLe, lt_trans hab hbc]
      · subst hbc; simp [tupleLe, hab]
      · simp [tupleLe, hbc, lt_asymm hbc] at h2
    · subst hab
      simp only [tupleLe, lt_irrefl, if_false] at h1
      rcases lt_trichotomy a c with hac | hac | hac
      · simp [tupleLe, hac]
      · subst hac
        simp only [tupleLe, lt_irrefl, if_false] at h2 ⊢
        exact tupleLe_trans h1 h2
      · simp [tupleLe, hac, lt_asymm hac] at h2
    · simp [tupleLe, hab, lt_asymm hab] at h1

instance : IsTrans Row rowLE where
  trans a b c h1 h2 := by
    rcases h1 with h1 | ⟨h1e, h1t⟩
    · rcases h2 with h2 | ⟨h2e, _⟩
      · exact Or.inl (lt_trans h2 h1)
      · exact Or.inl (h2e ▸ h1)
    · rcases h2 with h2 | ⟨h2e, h2t⟩
      · exact Or.inl (h1e ▸ h2)
      · exact Or.inr ⟨h1e.trans h2e, tupleLe_trans h1t h2t⟩

instance : IsTotal Row rowLE where
  total a b := by
    rcases lt_trichotomy a.2 b.2 with h | h | h
    · exact Or.inr (Or.inl h)
    · rcases tupleLe_total a.1 b.1 with ht | ht
      · exact Or.inl (Or.inr ⟨h, ht⟩)
      · exact Or.inr (Or.inr ⟨h.symm, ht⟩)
    · exact Or.inl (Or.inl h)

/-! ## Characterization of `get_result` -/

namespace Election

theorem get_result_ok {e : Election} (h : 0 ≤ e.committee_size) :
    e.get_result = (.ok (List.insertionSort rowLE e.committee_rows), e) := by
  unfold get_result
  rw [if_neg (not_lt.mpr h)]

theorem mem_committee_rows {e : Election} {row : Row} :
    row ∈ e.committee_rows ↔
      ∃ c ∈ List.sublistsLen e.committee_size.toNat (finsetSort e.candidate_universe),
        row = (c, e.score c.toFinset) := by
  simp only [committee_rows, List.mem_map]
  constructor
  · rintro ⟨c, hc, rfl⟩; exact ⟨c, hc, rfl⟩
  · rintro ⟨c, hc, rfl⟩; exact ⟨c, hc, rfl⟩

end Election

/-! ## Claim theorems -/

/-- C3: for every apportionment method obtainable in the system and
every index `i ≥ 1`, `v(i) = v(i-1) + dv(i)`, and `v(0) = 0`: `v` is the
prefix sum of `dv`. -/
theorem C3_v_prefix_sum (m : ApportionmentMethod) (i : ℤ) (h : 1 ≤ i) :
    m.v 0 = .ok 0 ∧
    ∃ a b c : ℚ, m.v i = .ok a ∧ m.v (i - 1) = .ok b ∧ m.dv i = .ok c ∧ a = b + c := by
  refine ⟨by simp [ApportionmentMethod.v], ?_⟩
  have h0 : (0 : ℤ) ≤ i := le_trans zero_le_one h
  have h1 : (0 : ℤ) ≤ i - 1 := by omega
  refine ⟨m.v_val i.toNat, m.v_val (i - 1).toNat, m.dv_val i.toNat,
    m.v_eq_ok h0, m.v_eq_ok h1, m.dv_eq_ok h0, ?_⟩
  have hnat : i.toNat = (i - 1).toNat + 1 := by omega
  rw [hnat, m.v_val_succ]

/-- Witness for C3 at the Sainte-Laguë method and index `3`. -/
theorem C3_witness :
    (1 : ℤ) ≤ 3 ∧
      (ApportionmentMethod.sainteLague.v 0 = .ok 0 ∧
        ∃ a b c : ℚ, ApportionmentMethod.sainteLague.v 3 = .ok a ∧
          ApportionmentMethod.sainteLague.v (3 - 1) = .ok b ∧
          ApportionmentMethod.sainteLague.dv 3 = .ok c ∧ a = b + c) :=
  ⟨by decide, C3_v_prefix_sum .sainteLague 3 (by decide)⟩

/-- C1: whenever `get_result` runs (any ballots, any `committee_size ≥ 0`
— in particular ballots sharing no candidate with a committee, and empty
ballots, never make it fail), every enumerated committee is paired with the
score `Σ_{b ∈ ballots} v(|b ∩ C|)`, and a ballot with empty overlap
contributes exactly `0` to that sum. -/
theorem C1_committee_scores (e : Election) (h : 0 ≤ e.committee_size) :
    ∃ rows, (e.get_result).1 = .ok rows ∧
      ∀ row ∈ rows,
        row.2 = (e.ballots.map fun p =>
          e.apportionment_method.v_val (p.2 ∩ row.1.toFinset).card).sum ∧
        ∀ p ∈ e.ballots, p.2 ∩ row.1.toFinset = ∅ →
          e.apportionment_method.v_val (p.2 ∩ row.1.toFinset).card = 0 := by
  refine ⟨List.insertionSort rowLE e.committee_rows, by rw [e.get_result_ok h], ?_⟩
  intro row hrow
  rw [List.mem_insertionSort] at hrow
  rcases Election.mem_committee_rows.mp hrow with ⟨c, _, rfl⟩
  constructor
  · rfl
  · intro p _ hdisj
    rw [hdisj]
    simp [ApportionmentMethod.v_val]

/-- Witness for C1 at `eC1`. -/
theorem C1_witness :
    (0 : ℤ) ≤ eC1.committee_size ∧
      (∃ rows, (eC1.get_result).1 = .ok rows ∧
        ∀ row ∈ rows,
          row.2 = (eC1.ballots.map fun p =>
            eC1.apportionment_method.v_val (p.2 ∩ row.1.toFinset).card).sum ∧
          ∀ p ∈ eC1.ballots, p.2 ∩ row.1.toFinset = ∅ →
            eC1.apportionment_method.v_val (p.2 ∩ row.1.toFinset).card = 0) :=
  ⟨by decide, C1_committee_scores eC1 (by decide)⟩

/-- C2: any sequence `get_result` returns is sorted primarily by score
descending and, within equal scores, by the committee's sorted candidate
tuple ascending; every returned committee has exactly `committee_size`
distinct candidates and a non-negative score. -/
theorem C2_result_ordering (e : Election) (h : 0 ≤ e.committee_size) :
    ∃ rows, (e.get_result).1 = .ok rows ∧ rows.Sorted rowLE ∧
      ∀ row ∈ rows,
        (row.1.length : ℤ) = e.committee_size ∧ row.1.Nodup ∧ 0 ≤ row.2 := by
  refine ⟨List.insertionSort rowLE e.committee_rows, by rw [e.get_result_ok h],
    List.sorted_insertionSort rowLE _, ?_⟩
  intro row hrow
  rw [List.mem_insertionSort] at hrow
  rcases Election.mem_committee_rows.mp hrow with ⟨c, hc, rfl⟩
  rw [List.mem_sublistsLen] at hc
  refine ⟨?_, ?_, ?_⟩
  · rw [hc.2, Int.toNat_of_nonneg h]
  · exact hc.1.nodup (finsetSort_nodup _)
  · exact List.sum_nonneg fun x hx => by
      rcases List.mem_map.mp hx with ⟨p, _, rfl⟩
      exact ApportionmentMethod.v_val_nonneg _ _

/-- Witness for C2 at `eC2`. -/
theorem C2_witness :
    (0 : ℤ) ≤ eC2.committee_size ∧
      (∃ rows, (eC2.get_result).1 = .ok rows ∧ rows.Sorted rowLE ∧
        ∀ row ∈ rows,
          (row.1.length : ℤ) = eC2.committee_size ∧ row.1.Nodup ∧ 0 ≤ row.2) :=
  ⟨by decide, C2_result_ordering eC2 (by decide)⟩

/-- C5 counterexample: the claim says `get_result` fails with an
InvalidArgument condition whenever `committee_size ≤ 0`.  At
`committee_size = 0` the code does not fail: `combinations(choices, 0)`
yields exactly the empty committee, so `get_result` returns a single row —
the empty committee with score `0`. -/
theorem C5_counterexample :
    (eC5zero.get_result).1 = .ok [([], 0)] ∧
      ¬∃ er : Err, (eC5zero.get_result).1 = .error er := by
  have h : (eC5zero.get_result).1 = .ok [([], 0)] := by decide
  exact ⟨h, fun hex => by
    rcases hex with ⟨er, he⟩
    exact Except.noConfusion (h.symm.trans he)⟩

/-- C5 amended: `get_result` fails (with the `ValueError` that
`combinations` raises) only when `committee_size` is strictly negative; at
`committee_size = 0` it returns the single empty committee with score `0`;
and when `committee_size` exceeds the number of distinct candidates in the
(optionally filtered) candidate universe it returns an empty result rather
than failing. -/
theorem C5_amended_behaviour (e : Election) :
    (e.committee_size < 0 → (e.get_result).1 = .error .valueError) ∧
    (e.committee_size = 0 → (e.get_result).1 = .ok [([], 0)]) ∧
    ((e.candidate_universe.card : ℤ) < e.committee_size → (e.get_result).1 = .ok []) := by
  refine ⟨?_, ?_, ?_⟩
  · intro hneg
    unfold Election.get_result
    rw [if_pos hneg]
  · intro h0
    rw [e.get_result_ok (le_of_eq h0.symm)]
    have hrows : e.committee_rows = [([], e.score (∅ : Finset Candidate))] := by
      unfold Election.committee_rows
      rw [h0]
      simp [List.sublistsLen_zero]
    have hscore : e.score (∅ : Finset Candidate) = 0 := by
      unfold Election.score
      refine List.sum_eq_zero fun x hx => ?_
      rcases List.mem_map.mp hx with ⟨p, _, rfl⟩
      simp [ApportionmentMethod.v_val]
    rw [hrows, hscore]
    rfl
  · intro hbig
    have h0 : 0 ≤ e.committee_size :=
      le_trans (Int.ofNat_nonneg _) (le_of_lt hbig)
    rw [e.get_result_ok h0]
    have hlen : (finsetSort e.candidate_universe).length < e.committee_size.toNat := by
      rw [length_finsetSort]
      omega
    have hrows : e.committee_rows = [] := by
      unfold Election.committee_rows
      rw [List.sublistsLen_of_length_lt hlen]
      rfl
    rw [hrows]
    rfl

/-- Witness for the amended C5 at three concrete elections, one per
clause. -/
theorem C5_amended_witness :
    (eC5neg.committee_size < 0 ∧ (eC5neg.get_result).1 = .error .valueError) ∧
      (eC5zero.committee_size = 0 ∧ (eC5zero.get_result).1 = .ok [([], 0)]) ∧
      ((eC5big.candidate_universe.card : ℤ) < eC5big.committee_size ∧
        (eC5big.get_result).1 = .ok []) :=
  ⟨⟨by decide, (C5_amended_behaviour eC5neg).1 (by decide)⟩,
    ⟨by decide, (C5_amended_behaviour eC5zero).2.1 (by decide)⟩,
    ⟨by decide, (C5_amended_behaviour eC5big).2.2 (by decide)⟩⟩

/-- C4: the factory `from_name` resolves the three Sainte-Laguë names,
but `"d_hondt"` — advertised by the function's own `Literal` annotation and
by the base class's docstrings — is missing from the lookup dict and raises
`KeyError` like any unrecognized name; no d'Hondt method exists in the
module at all. -/
theorem C4_from_name_eval :
    ApportionmentMethod.from_name "d_hondt" = .error .keyError ∧
    ApportionmentMethod.from_name "sainte_lague" = .ok .sainteLague ∧
    ApportionmentMethod.from_name "sainte_lague_1_2" = .ok .sainteLague12 ∧
    ApportionmentMethod.from_name "sainte_lague_1_4" = .ok .sainteLague14 ∧
    ApportionmentMethod.from_name "dhondt" = .error .keyError ∧
    ApportionmentMethod.from_name "" = .error .keyError := by
  refine ⟨by decide, by decide, by decide, by decide, by decide, by decide⟩

/-- The unrecognized-name half of C4 in full generality: every name other
than the three present dict keys raises `KeyError`. -/
theorem C4_from_name_unknown (name : String)
    (h1 : name ≠ "sainte_lague") (h2 : name ≠ "sainte_lague_1_2")
    (h3 : name ≠ "sainte_lague_1_4") :
    ApportionmentMethod.from_name name = .error .keyError := by
  simp [ApportionmentMethod.from_name, h1, h2, h3]

/-- Witness for `C4_from_name_unknown` at the concrete name `"d_hondt"`. -/
theorem C4_from_name_unknown_witness :
    ("d_hondt" ≠ "sainte_lague" ∧ "d_hondt" ≠ "sainte_lague_1_2" ∧
      "d_hondt" ≠ "sainte_lague_1_4") ∧
    ApportionmentMethod.from_name "d_hondt" = .error .keyError :=
  ⟨⟨by decide, by decide, by decide⟩,
    C4_from_name_unknown "d_hondt" (by decide) (by decide) (by decide)⟩

/-- C6: the claim says removal succeeds when the target is present.  In
the code it never does: in `eOne` the ballot `{"A"}` is stored under
identity 0, yet `remove_ballot(0)` and `remove_ballot({"A"})` both raise
`TypeError` (the final `del self.ballot_to_indexes[ballot_value]` uses the
unhashable `set` as a dict key — and under Python ≥ 3.12 already the
`isinstance(ballot, Ballot)` dispatch on the PEP 695 alias raises
`TypeError`), and the signature-index entry survives; the absent-identity
case raises `KeyError` as the NotFound half of the claim expects. -/
theorem C6_remove_present_eval :
    assocFind 0 eOne.ballots = some {"A"} ∧
    (eOne.remove_ballot (.id 0)).1 = .error .typeError ∧
    (eOne.remove_ballot (.value {"A"})).1 = .error .typeError ∧
    (eOne.remove_ballot (.id 0)).2.ballot_to_indexes = [(["A"], [0])] ∧
    (eOne.remove_ballot (.id 5)).1 = .error .keyError := by
  refine ⟨by decide, by decide, by decide, by decide, by decide⟩

/-- C7: with two same-signature ballots stored (`eTwo`), removal by
value does select the most recently inserted index (1, LIFO) and deletes it
from `ballots`, but the call then raises `TypeError` instead of completing,
and the signature-index entry keeps both indexes (the source's
`del self.ballot_to_indexes[ballot_value]` would drop the whole entry, not
pop one index, even with a hashable key) — so the claimed successful
LIFO-removal semantics never holds. -/
theorem C7_lifo_eval :
    eTwo.ballots = [(0, {"A"}), (1, {"A"})] ∧
    (eTwo.remove_ballot (.value {"A"})).1 = .error .typeError ∧
    (eTwo.remove_ballot (.value {"A"})).2.ballots = [(0, {"A"})] ∧
    (eTwo.remove_ballot (.value {"A"})).2.ballot_to_indexes = [(["A"], [0, 1])] := by
  refine ⟨by decide, by decide, by decide, by decide⟩

/-- C8: cast-then-remove does not round-trip: starting from the fresh
store `eFresh`, casting `{"A"}` (identity 0) and then removing it — by
identity or by value — raises `TypeError`, and the resulting state differs
from `eFresh` (the counter stays advanced and the signature-index entry
survives; under real Python ≥ 3.12 even the ballot itself survives, since
the `isinstance` dispatch raises before any deletion). -/
theorem C8_roundtrip_eval :
    (eFresh.get_result).1 = .ok [] ∧
    (eFresh.cast_ballot ["A"]).1 = .ok 0 ∧
    (eOne.remove_ballot (.id 0)).1 = .error .typeError ∧
    (eOne.remove_ballot (.id 0)).2 ≠ eFresh ∧
    (eOne.remove_ballot (.value {"A"})).1 = .error .typeError ∧
    (eOne.remove_ballot (.value {"A"})).2 ≠ eFresh := by
  refine ⟨by decide, by decide, by decide, by decide, by decide, by decide⟩

/-- C9: `get_result` assigns no attribute: it leaves `ballots`,
`ballot_to_indexes` and `counter` untouched, and a second call returns the
same output as the first. -/
theorem C9_get_result_pure (e : Election) :
    (e.get_result).2 = e ∧
    ((e.get_result).2.get_result).1 = (e.get_result).1 ∧
    (e.get_result).2.ballots = e.ballots ∧
    (e.get_result).2.ballot_to_indexes = e.ballot_to_indexes ∧
    (e.get_result).2.counter = e.counter := by
  have h2 : (e.get_result).2 = e := by
    unfold Election.get_result
    split <;> rfl
  exact ⟨h2, by rw [h2], by rw [h2], by rw [h2], by rw [h2]⟩

/-! ## The counter/identity invariant (C10) -/

theorem assocFind_eq_none {κ ν : Type} [DecidableEq κ] {k : κ} {l : List (κ × ν)}
    (h : ∀ p ∈ l, p.1 ≠ k) : assocFind k l = none := by
  induction l with
  | nil => rfl
  | cons q rest ih =>
    unfold assocFind
    rw [if_neg fun he => h q (List.mem_cons_self q rest) he.symm]
    exact ih fun p hp => h p (List.mem_cons_of_mem q hp)

theorem mem_assocErase {κ ν : Type} [DecidableEq κ] {k : κ} {l : List (κ × ν)} {p : κ × ν}
    (hp : p ∈ assocErase k l) : p ∈ l := by
  induction l with
  | nil => exact absurd hp (List.not_mem_nil p)
  | cons q rest ih =>
    unfold assocErase at hp
    by_cases hk : k = q.1
    · rw [if_pos hk] at hp
      exact List.mem_cons_of_mem q hp
    · rw [if_neg hk] at hp
      rcases List.mem_cons.mp hp with h1 | h1
      · exact h1 ▸ List.mem_cons_self q rest
      · exact List.mem_cons_of_mem q (ih h1)

theorem Election.cast_ballot_eq {e : Election} (h : e.keysBelowCounter)
    (approves : List Candidate) :
    e.cast_ballot approves =
      (.ok e.counter,
        { e with
          ballots := e.ballots ++ [(e.counter, approves.toFinset)]
          ballot_to_indexes :=
            indexAppend (ballotKey approves.toFinset) e.counter e.ballot_to_indexes
          counter := e.counter + 1 }) := by
  have hfind : assocFind e.counter e.ballots = none :=
    assocFind_eq_none fun p hp => Nat.ne_of_lt (h p hp)
  simp only [Election.cast_ballot, hfind]
  rfl

theorem Election.cast_ballot_spec {e : Election} (h : e.keysBelowCounter)
    (approves : List Candidate) :
    (e.cast_ballot approves).1 = .ok e.counter ∧
    (e.cast_ballot approves).2.counter = e.counter + 1 ∧
    (e.cast_ballot approves).2.keysBelowCounter := by
  rw [Election.cast_ballot_eq h approves]
  refine ⟨rfl, rfl, ?_⟩
  intro p hp
  rcases List.mem_append.mp hp with h1 | h1
  · exact Nat.lt_succ_of_lt (h p h1)
  · rw [List.mem_singleton.mp h1]
    exact Nat.lt_succ_self _

theorem Election.remove_ballot_spec (e : Election) (arg : Election.BallotOrId) :
    (e.remove_ballot arg).2.counter = e.counter ∧
    (e.remove_ballot arg).1 ≠ .error .runtimeError ∧
    (e.keysBelowCounter → (e.remove_ballot arg).2.keysBelowCounter) := by
  cases arg with
  | value b =>
    simp only [Election.remove_ballot]
    split
    · exact ⟨rfl, by simp, fun hI p hp => hI p hp⟩
    · split
      · exact ⟨rfl, by simp, fun hI => hI⟩
      · split
        · exact ⟨rfl, by simp, fun hI => hI⟩
        · exact ⟨rfl, by simp, fun hI p hp => hI p (mem_assocErase hp)⟩
  | id i =>
    simp only [Election.remove_ballot]
    split
    · exact ⟨rfl, by simp, fun hI => hI⟩
    · exact ⟨rfl, by simp, fun hI p hp => hI p (mem_assocErase hp)⟩

theorem Election.step_spec {e : Election} (h : e.keysBelowCounter) (op : Op) :
    (e.step op).2.keysBelowCounter ∧
    e.counter ≤ (e.step op).2.counter ∧
    (e.step op).1 ≠ .failed .runtimeError ∧
    ∀ i, (e.step op).1 = .castId i → i = e.counter ∧ (e.step op).2.counter = e.counter + 1 := by
  cases op with
  | cast approves =>
    have hc := e.cast_ballot_spec h approves
    simp only [Election.step]
    cases hcb : e.cast_ballot approves with
    | mk r e1 =>
      rw [hcb] at hc
      cases r with
      | error er => exact absurd hc.1 fun hcon => Except.noConfusion hcon
      | ok i =>
        have hi : i = e.counter := by
          have h1 := hc.1
          simp only [Except.ok.injEq] at h1
          exact h1
        refine ⟨hc.2.2, ?_, by simp, fun j hj => ?_⟩
        · have h2 := hc.2.1
          simp only at h2 ⊢
          omega
        · simp only [Out.castId.injEq] at hj
          exact ⟨hj ▸ hi, hc.2.1⟩
  | remove arg =>
    have hr := e.remove_ballot_spec arg
    simp only [Election.step]
    cases hrb : e.remove_ballot arg with
    | mk r e1 =>
      rw [hrb] at hr
      cases r with
      | ok u => exact ⟨hr.2.2 h, le_of_eq hr.1.symm, by simp, fun j hj => by simp at hj⟩
      | error er =>
        refine ⟨hr.2.2 h, le_of_eq hr.1.symm, ?_, fun j hj => by simp at hj⟩
        intro hfail
        simp only [Out.failed.injEq] at hfail
        exact hr.2.1 (by rw [hfail])

theorem Election.run_spec (ops : List Op) :
    ∀ (e : Election), e.keysBelowCounter →
      (∀ i ∈ castIds (e.run ops).1, e.counter ≤ i ∧ i < (e.run ops).2.counter) ∧
      (castIds (e.run ops).1).Sorted (· < ·) ∧
      Out.failed .runtimeError ∉ (e.run ops).1 ∧
      (e.run ops).2.keysBelowCounter ∧
      e.counter ≤ (e.run ops).2.counter := by
  induction ops with
  | nil =>
    intro e hI
    exact ⟨fun i hi => absurd hi (List.not_mem_nil i), List.sorted_nil,
      List.not_mem_nil _, hI, le_refl _⟩
  | cons op ops ih =>
    intro e hI
    obtain ⟨hI1, hle1, hnr1, hcast1⟩ := e.step_spec hI op
    obtain ⟨ihBounds, ihSorted, ihNoRt, ihInv, ihLe⟩ := ih (e.step op).2 hI1
    have hrun1 : (e.run (op :: ops)).1 = (e.step op).1 :: ((e.step op).2.run ops).1 := rfl
    have hrun2 : (e.run (op :: ops)).2 = ((e.step op).2.run ops).2 := rfl
    rw [hrun1, hrun2]
    cases ho : (e.step op).1 with
    | castId i =>
      obtain ⟨hi, hcnt⟩ := hcast1 i ho
      subst hi
      have hlt : ∀ j ∈ castIds ((e.step op).2.run ops).1, e.counter < j := by
        intro j hj
        have := (ihBounds j hj).1
        omega
      refine ⟨?_, ?_, ?_, ihInv, ?_⟩
      · intro j hj
        rcases List.mem_cons.mp hj with rfl | hj2
        · constructor
          · exact le_refl _
          · have := ihLe
            omega
        · obtain ⟨hlo, hhi⟩ := ihBounds j hj2
          exact ⟨by omega, hhi⟩
      · exact List.sorted_cons.mpr ⟨hlt, ihSorted⟩
      · intro hmem
        rcases List.mem_cons.mp hmem with hhd | htl
        · exact Out.noConfusion hhd.symm
        · exact ihNoRt htl
      · omega
    | removed =>
      refine ⟨?_, ihSorted, ?_, ihInv, by omega⟩
      · intro j hj
        obtain ⟨hlo, hhi⟩ := ihBounds j hj
        exact ⟨by omega, hhi⟩
      · intro hmem
        rcases List.mem_cons.mp hmem with hhd | htl
        · exact Out.noConfusion hhd.symm
        · exact ihNoRt htl
    | failed er =>
      refine ⟨?_, ihSorted, ?_, ihInv, by omega⟩
      · intro j hj
        obtain ⟨hlo, hhi⟩ := ihBounds j hj
        exact ⟨by omega, hhi⟩
      · intro hmem
        rcases List.mem_cons.mp hmem with hhd | htl
        · rw [← ho] at hhd
          exact hnr1 hhd.symm
        · exact ihNoRt htl

/-- C10: for every finite sequence of `cast_ballot` / `remove_ballot`
calls against a freshly created election, the identities returned by the
successful casts are strictly increasing (never reused, removals
notwithstanding), and the internal invariant-breach `RuntimeError` is never
raised. -/
theorem C10_identities_strictly_increase (cs : ℤ) (m : ApportionmentMethod)
    (ch : Option Ballot) (ops : List Op) :
    (castIds ((freshElection cs m ch).run ops).1).Sorted (· < ·) ∧
    Out.failed .runtimeError ∉ ((freshElection cs m ch).run ops).1 := by
  have h := Election.run_spec ops (freshElection cs m ch)
    (fun p hp => absurd hp (List.not_mem_nil p))
  exact ⟨h.2.1, h.2.2.1⟩

end AxVoting
